import Mathlib

/-!
Verification of the `EigenSolver` orchestration layer in
`src/slepc_eigensolver.py`.

The Python code is a thin wrapper around PETSc/SLEPc.  The embedding below
translates the wrapper's own logic (constructor normalisation of `bcs`,
interior-DOF selection, submatrix reduction, option handling, eigenpair
materialisation) directly from the source, and models the external library
primitives it calls (`PETSc.Scatter.scatter`, `Mat.createSubMatrix`,
`PETScOptions.set`, `EPS.getEigenpair`) by their documented semantics.
Vector values are modelled as integers; the claims under study are about
index plumbing, not about floating-point arithmetic.
-/

namespace SlepcEigen

/-- Python exceptions that the wrapper can surface.  `attributeError` is
Python's `AttributeError` (attribute accessed before it exists, or on
`None`); `outOfRange` is the PETSc "Argument out of range" error raised by
`EPS.getEigenpair` for an index `≥ nconv`. -/
inductive PyErr where
  | attributeError : PyErr
  | outOfRange : PyErr
  deriving Repr, DecidableEq

/-- A Dirichlet boundary condition, modelled by the key set of its
`get_boundary_values()` dictionary: the full-space DOF indices it fixes
(source line 65 uses only `.keys()`). -/
structure BC where
  keys : List Nat
  deriving Repr, DecidableEq

/-- A PETSc matrix: a square dimension and an entry function.  Only the
shape and entry addressing matter for the claims under study. -/
structure Mat where
  n : Nat
  entry : Nat → Nat → Int

/-- Models `PETSc.Mat.createSubMatrix(is_row, is_col)` with the same index
set for rows and columns, as called on source lines 42-43: the principal
submatrix keeping row `iset[i]` and column `iset[j]`, in the index set's
order. -/
def Mat.createSubMatrix (A : Mat) (iset : List Nat) : Mat :=
  { n := iset.length, entry := fun i j => A.entry (iset.getD i 0) (iset.getD j 0) }

/-- The accumulation loop of source lines 63-65: `bc_dofs = []` then
`bc_dofs.extend(bc.get_boundary_values().keys())` for each `bc`.  An
element that is Python `None` (possible because the constructor wraps the
default `bcs=None` into `[None]`) has no `get_boundary_values` attribute,
so the loop raises `AttributeError`; this is modelled by returning
`Option.none`. -/
def bcDofsAux : List (Option BC) → List Nat → Option (List Nat)
  | [], acc => some acc
  | Option.none :: _, _ => Option.none
  | some bc :: rest, acc => bcDofsAux rest (acc ++ bc.keys)

/-- The list built by the pure loop of lines 63-65 on genuine boundary
conditions (the concatenation of all key lists, in order). -/
def bcDofs (bcs : List BC) : List Nat :=
  bcs.foldl (fun acc bc => acc ++ bc.keys) []

/-- Translation of `EigenSolver.get_interior_index_set` (source lines
60-71): collect every constrained DOF, then keep each `x` of
`range(ownership_range[0], ownership_range[1])` with `x not in bc_dofs`.
The resulting list is the content of the `PETSc.IS` returned on line 71. -/
def get_interior_index_set (bcs : List (Option BC)) (lo hi : Nat) :
    Except PyErr (List Nat) :=
  match bcDofsAux bcs [] with
  | Option.none => Except.error PyErr.attributeError
  | some bc_dofs =>
      Except.ok ((List.range' lo (hi - lo)).filter (fun x => decide (x ∉ bc_dofs)))

/-- The constrained set restricted to the ownership range `[lo, hi)`,
with each DOF counted once: used to state the disjointness / covering /
cardinality parts of the Interior DOF Selector contract. -/
def constrainedIn (bcs : List BC) (lo hi : Nat) : List Nat :=
  (List.range' lo (hi - lo)).filter (fun x => decide (x ∈ bcDofs bcs))

/-- Models `PETSc.Scatter.scatter(vec_from, vec_to)` for a scatter created
with `is_from=None` and `is_to=is_to` (source lines 44-50): position
`is_to[i]` of the destination receives `src[i]`, every other destination
position is left untouched. -/
def scatter (is_to : List Nat) (src dst : List Int) : List Int :=
  (is_to.zip src).foldl (fun d p => d.set p.1 p.2) dst

/-- Reading the interior positions back out of a full-space vector:
the reduced vector whose entry `i` is `full[is_to[i]]`. -/
def gatherInterior (is_to : List Nat) (full : List Int) : List Int :=
  is_to.map (fun j => full.getD j 0)

/-- A freshly allocated `dolfin.Function(self.V)` vector: zero at every
one of its `n` positions. -/
def zeroFun (n : Nat) : List Int :=
  List.replicate n 0

/-- The `bcs` argument of `EigenSolver.__init__`: Python `None`
(the default), a bare boundary-condition object, or a list of them. -/
inductive BcsArg where
  | noneArg : BcsArg
  | single : BC → BcsArg
  | list : List BC → BcsArg

/-- Source lines 29-32: `self.bcs = bcs if type(bcs) == list else [bcs]`.
A non-list argument — including the default `None` — is wrapped in a
one-element list. -/
def normalizeBcs : BcsArg → List (Option BC)
  | BcsArg.noneArg => [Option.none]
  | BcsArg.single bc => [some bc]
  | BcsArg.list l => l.map some

/-- Python truthiness of the `option_prefix` argument, as tested by
`if option_prefix:` on source line 26: `None` and the empty string are
falsy, every other string is truthy. -/
def truthyStr : Option String → Bool
  | some s => s != ""
  | Option.none => false

/-- Materialisation of the Python default argument
`slepc_options={'eps_max_it':100}` (source line 19): an omitted argument
yields the default dictionary, a supplied argument is used as given
(it replaces the default dictionary wholesale). -/
def initOptions : Option (List (String × Int)) → List (String × Int)
  | some o => o
  | Option.none => [("eps_max_it", 100)]

/-- The global PETSc options database mutated by `PETScOptions.set`. -/
abbrev Registry : Type := String → Option Int

/-- The options database before any option has been set. -/
def emptyRegistry : Registry := fun _ => Option.none

/-- Models one call `PETScOptions.set(opt, value)` (source line 106):
the database now maps `opt` to `value` and is unchanged elsewhere. -/
def petscOptionsSet (reg : Registry) (k : String) (v : Int) : Registry :=
  fun q => if q = k then some v else reg q

/-- The loop of `EigenSolver.set_options` (source lines 102-108), applied
to an options database: every `(opt, value)` item of the mapping is set,
in iteration order. -/
def set_options (reg : Registry) (opts : List (String × Int)) : Registry :=
  opts.foldl (fun r p => petscOptionsSet r p.1 p.2) reg

/-- The last value a mapping associates with key `k`, if any — the value
that survives in the options database after `set_options` replays the
mapping in order. -/
def lastVal (opts : List (String × Int)) (k : String) : Option Int :=
  match opts with
  | [] => Option.none
  | p :: rest =>
      match lastVal rest k with
      | some v => some v
      | Option.none => if p.1 = k then some p.2 else Option.none

/-- The state `EigenSolver.__init__` leaves behind: the normalised `bcs`
list, the (possibly reduced) operators `K` and `M`, the interior index set
`index_set_not_bc` when the reduction branch ran (it is also the `is_to`
of the scatter projector built on lines 44-50), the stored
`slepc_options`, and the length of a full-space function vector. -/
structure Solver where
  bcs : List (Option BC)
  K : Mat
  M : Mat
  index_set : Option (List Nat)
  slepc_options : List (String × Int)
  fullSize : Nat

/-- Translation of `EigenSolver.__init__` (source lines 14-57) for the
claims under study.  Line 26 tests `option_prefix` for truthiness and, if
truthy, reads `self.E` before any eigensolver attribute exists — an
`AttributeError`.  Lines 29-32 normalise `bcs`.  Lines 39-50 run only when
the normalised list is truthy (non-empty): they compute the interior index
set, reduce `K` and `M` with it, and build the scatter projector whose
`is_to` is that same index set.  The assembled full-space operators are
taken as inputs (assembly is external). -/
def EigenSolver.init (K M : Mat) (lo hi : Nat) (bcs : BcsArg)
    (slepc_options : Option (List (String × Int))) ( prefixOpt : Option String) :
    Except PyErr Solver :=
  if truthyStr prefixOpt then Except.error PyErr.attributeError
  else
    let bcsL := normalizeBcs bcs
    if bcsL.isEmpty then
      Except.ok { bcs := bcsL, K := K, M := M, index_set := Option.none,
                  slepc_options := initOptions slepc_options, fullSize := hi }
    else
      match get_interior_index_set bcsL lo hi with
      | Except.error e => Except.error e
      | Except.ok iset =>
          Except.ok { bcs := bcsL, K := K.createSubMatrix iset,
                      M := M.createSubMatrix iset, index_set := some iset,
                      slepc_options := initOptions slepc_options, fullSize := hi }

/-- The post-`solve` state of the external SLEPc eigensolver session:
the converged count reported by `E.getConverged()` and the eigenpairs it
holds (eigenvalue, real eigenvector, imaginary eigenvector, both in the
reduced space). -/
structure EpsState where
  nconv : Nat
  pairs : Nat → Int × List Int × List Int

/-- Models the documented contract of `SLEPc.EPS.getEigenpair(i)`: valid
for `0 ≤ i < nconv`, otherwise the library raises a PETSc "Argument out of
range" error. -/
def EPS.getEigenpair (eps : EpsState) (i : Nat) :
    Except PyErr (Int × List Int × List Int) :=
  if i < eps.nconv then Except.ok (eps.pairs i) else Except.error PyErr.outOfRange

/-- Translation of `EigenSolver.get_eigenpair` (source lines 110-118):
allocate two fresh zero functions `u_r`, `u_im`, fetch the reduced
eigenpair from the session, and — only when `self.bcs` is truthy — scatter
the reduced vectors into the fresh functions through the projector built
in the constructor.  When `self.bcs` is empty the functions are returned
as allocated. -/
def EigenSolver.get_eigenpair (s : Solver) (eps : EpsState) (i : Nat) :
    Except PyErr (Int × List Int × List Int) :=
  let u_r := zeroFun s.fullSize
  let u_im := zeroFun s.fullSize
  match EPS.getEigenpair eps i with
  | Except.error e => Except.error e
  | Except.ok (eig, v_r, v_i) =>
      if s.bcs.isEmpty then
        Except.ok (eig, u_r, u_im)
      else
        let iset := s.index_set.getD []
        Except.ok (eig, scatter iset v_r u_r, scatter iset v_i u_im)

/-- A concrete 2×2 full-space matrix used by the concrete evaluations. -/
def mat2 : Mat :=
  { n := 2, entry := fun i j => (i : Int) + j }

/-- A concrete 3×3 full-space matrix used by the concrete evaluations. -/
def mat3 : Mat :=
  { n := 3, entry := fun i j => 2 * (i : Int) + j }

/-- A session state with one converged eigenpair whose real eigenvector is
`[1, 2]`. -/
def epsOne : EpsState :=
  { nconv := 1, pairs := fun _ => (7, [1, 2], [0, 0]) }

/-- A session state with no converged eigenpair. -/
def epsNone : EpsState :=
  { nconv := 0, pairs := fun _ => (0, [], []) }

/-- A session state with one converged eigenpair in a one-dimensional
reduced space. -/
def epsW : EpsState :=
  { nconv := 1, pairs := fun _ => (3, [4], [5]) }

/-- A solver state as left by a constructor run with one boundary
condition fixing DOF 0 of a two-DOF space, so the interior set is `[1]`. -/
def solverW : Solver :=
  { bcs := [some { keys := [0] }], K := mat2.createSubMatrix [1],
    M := mat2.createSubMatrix [1], index_set := some [1],
    slepc_options := [("eps_max_it", 100)], fullSize := 2 }

/-- A solver state as left by a constructor run with an empty
boundary-condition list. -/
def solverNoBc : Solver :=
  { bcs := [], K := mat2, M := mat2, index_set := Option.none,
    slepc_options := [("eps_max_it", 100)], fullSize := 2 }

theorem foldl_set_length (pairs : List (Nat × Int)) (dst : List Int) :
    (pairs.foldl (fun d p => d.set p.1 p.2) dst).length = dst.length := by
  induction pairs generalizing dst with
  | nil => rfl
  | cons p rest ih => simp [List.foldl_cons, ih]

theorem foldl_set_getElem?_of_not_mem (pairs : List (Nat × Int)) (dst : List Int)
    (j : Nat) (h : ∀ p ∈ pairs, p.1 ≠ j) :
    (pairs.foldl (fun d p => d.set p.1 p.2) dst)[j]? = dst[j]? := by
  induction pairs generalizing dst with
  | nil => rfl
  | cons p rest ih =>
    rw [List.foldl_cons, ih _ (fun q hq => h q (List.mem_cons_of_mem p hq)),
      List.getElem?_set_ne (h p (List.mem_cons_self p rest))]

theorem scatter_getD_of_not_mem (is_to : List Nat) (src dst : List Int) (j : Nat)
    (h : j ∉ is_to) :
    (scatter is_to src dst).getD j 0 = dst.getD j 0 := by
  rw [scatter, List.getD_eq_getElem?_getD, List.getD_eq_getElem?_getD,
    foldl_set_getElem?_of_not_mem]
  intro p hp hpj
  obtain ⟨a, b⟩ := p
  exact h (hpj ▸ (List.of_mem_zip hp).1)

theorem scatter_getD_mem (is_to : List Nat) (src dst : List Int)
    (hnd : is_to.Nodup) (i : Nat) (hi : i < is_to.length) (hs : i < src.length)
    (hb : is_to.getD i 0 < dst.length) :
    (scatter is_to src dst).getD (is_to.getD i 0) 0 = src.getD i 0 := by
  induction is_to generalizing src dst i with
  | nil => simp at hi
  | cons a rest ih =>
    cases src with
    | nil => simp at hs
    | cons v vs =>
      have hsplit : scatter (a :: rest) (v :: vs) dst = scatter rest vs (dst.set a v) := by
        simp [scatter]
      cases i with
      | zero =>
        have ha : a ∉ rest := (List.nodup_cons.mp hnd).1
        simp only [List.getD_cons_zero] at hb ⊢
        rw [hsplit, scatter, List.getD_eq_getElem?_getD, foldl_set_getElem?_of_not_mem,
          List.getElem?_set_eq_of_lt v hb]
        · rfl
        · intro p hp hpa
          obtain ⟨x, y⟩ := p
          exact ha (hpa ▸ (List.of_mem_zip hp).1)
      | succ m =>
        simp only [List.getD_cons_succ] at hb ⊢
        rw [hsplit]
        exact ih vs (dst.set a v) (List.nodup_cons.mp hnd).2 m
          (Nat.lt_of_succ_lt_succ hi) (Nat.lt_of_succ_lt_succ hs)
          (by simpa using hb)

/-- C1: the Scatter Projector copies `src[i]` into destination position
`is_to[i]` for every `i`, leaves every destination position outside the
index set untouched, and scattering into a zero-initialized full vector
followed by re-extracting the interior positions recovers the source
exactly. -/
theorem scatter_projector_spec (is_to : List Nat) (src dst : List Int) (n : Nat)
    (hnd : is_to.Nodup) (hlen : src.length = is_to.length)
    (hdst : ∀ j ∈ is_to, j < dst.length) (hn : ∀ j ∈ is_to, j < n) :
    (∀ i, i < is_to.length →
        (scatter is_to src dst).getD (is_to.getD i 0) 0 = src.getD i 0) ∧
    (∀ j, j ∉ is_to → (scatter is_to src dst).getD j 0 = dst.getD j 0) ∧
    gatherInterior is_to (scatter is_to src (zeroFun n)) = src := by
  have hmem : ∀ i, i < is_to.length → is_to.getD i 0 ∈ is_to := by
    intro i hi
    rw [List.getD_eq_getElem _ _ hi]
    exact List.getElem_mem hi
  refine ⟨?_, ?_, ?_⟩
  · intro i hi
    exact scatter_getD_mem is_to src dst hnd i hi (hlen ▸ hi) (hdst _ (hmem i hi))
  · intro j hj
    exact scatter_getD_of_not_mem is_to src dst j hj
  · have hz : (zeroFun n).length = n := by simp [zeroFun]
    apply List.ext_get
    · simp [gatherInterior, hlen]
    · intro t h₁ h₂
      have hts : t < is_to.length := by simpa [gatherInterior] using h₁
      simp only [gatherInterior, List.get_eq_getElem, List.getElem_map]
      have h3 : (scatter is_to src (zeroFun n)).getD (is_to.getD t 0) 0 = src.getD t 0 :=
        scatter_getD_mem is_to src (zeroFun n) hnd t hts (hlen ▸ hts)
          (by rw [hz]; exact hn _ (hmem t hts))
      have hts2 : t < src.length := by rw [hlen]; exact hts
      rw [List.getD_eq_getElem _ _ hts, List.getD_eq_getElem _ _ hts2] at h3
      exact h3

/-- Witness for C1 at `is_to = [0, 2]`, `src = [5, 7]`,
`dst = [1, 1, 1, 1]`, `n = 4`. -/
theorem scatter_projector_spec_witness :
    ([0, 2] : List Nat).Nodup ∧
    ([5, 7] : List Int).length = ([0, 2] : List Nat).length ∧
    (∀ j ∈ ([0, 2] : List Nat), j < ([1, 1, 1, 1] : List Int).length) ∧
    (∀ j ∈ ([0, 2] : List Nat), j < 4) ∧
    ((∀ i, i < ([0, 2] : List Nat).length →
        (scatter [0, 2] [5, 7] [1, 1, 1, 1]).getD (([0, 2] : List Nat).getD i 0) 0
          = ([5, 7] : List Int).getD i 0) ∧
     (∀ j, j ∉ ([0, 2] : List Nat) →
        (scatter [0, 2] [5, 7] [1, 1, 1, 1]).getD j 0
          = ([1, 1, 1, 1] : List Int).getD j 0) ∧
     gatherInterior [0, 2] (scatter [0, 2] [5, 7] (zeroFun 4)) = [5, 7]) :=
  ⟨by decide, by decide, by decide, by decide,
    scatter_projector_spec [0, 2] [5, 7] [1, 1, 1, 1] 4
      (by decide) (by decide) (by decide) (by decide)⟩

theorem bcDofsAux_map_some (bcs : List BC) (acc : List Nat) :
    bcDofsAux (bcs.map some) acc
      = some (bcs.foldl (fun a bc => a ++ bc.keys) acc) := by
  induction bcs generalizing acc with
  | nil => rfl
  | cons bc rest ih => simp [bcDofsAux, ih]

theorem mem_foldl_append (bcs : List BC) (acc : List Nat) (x : Nat) :
    x ∈ bcs.foldl (fun a bc => a ++ bc.keys) acc
      ↔ x ∈ acc ∨ ∃ bc ∈ bcs, x ∈ bc.keys := by
  induction bcs generalizing acc with
  | nil => simp
  | cons bc rest ih =>
    simp only [List.foldl_cons, ih, List.mem_append, List.mem_cons]
    constructor
    · rintro (⟨h | h⟩ | ⟨b, hb, hx⟩)
      · exact Or.inl h
      · exact Or.inr ⟨bc, Or.inl rfl, h⟩
      · exact Or.inr ⟨b, Or.inr hb, hx⟩
    · rintro (h | ⟨b, (rfl | hb), hx⟩)
      · exact Or.inl (Or.inl h)
      · exact Or.inl (Or.inr hx)
      · exact Or.inr ⟨b, hb, hx⟩

theorem mem_bcDofs (bcs : List BC) (x : Nat) :
    x ∈ bcDofs bcs ↔ ∃ bc ∈ bcs, x ∈ bc.keys := by
  simp [bcDofs, mem_foldl_append]

theorem get_interior_eq (bcs : List BC) (lo hi : Nat) :
    get_interior_index_set (bcs.map some) lo hi =
      Except.ok ((List.range' lo (hi - lo)).filter
        (fun x => decide (x ∉ bcDofs bcs))) := by
  rw [get_interior_index_set, bcDofsAux_map_some]
  rfl

/-- C2: on genuine boundary conditions the Interior DOF Selector succeeds
and returns the strictly ascending, duplicate-free sequence of exactly
those indices of `[lo, hi)` constrained by no boundary condition; the
result is disjoint from the constrained set restricted to `[lo, hi)`,
together they cover `[lo, hi)`, and their lengths sum to `hi - lo`. -/
theorem interior_index_set_spec (bcs : List BC) (lo hi : Nat) :
    ∃ interior,
      get_interior_index_set (bcs.map some) lo hi = Except.ok interior ∧
      interior.Pairwise (· < ·) ∧
      interior.Nodup ∧
      (∀ x, x ∈ interior ↔ (lo ≤ x ∧ x < hi ∧ ∀ bc ∈ bcs, x ∉ bc.keys)) ∧
      (∀ x, ¬(x ∈ interior ∧ x ∈ constrainedIn bcs lo hi)) ∧
      (∀ x, lo ≤ x → x < hi → (x ∈ interior ∨ x ∈ constrainedIn bcs lo hi)) ∧
      interior.length + (constrainedIn bcs lo hi).length = hi - lo := by
  refine ⟨_, get_interior_eq bcs lo hi, ?_, ?_, ?_, ?_, ?_, ?_⟩
  · exact (List.pairwise_lt_range' lo (hi - lo)).sublist (List.filter_sublist _)
  · exact ((List.pairwise_lt_range' lo (hi - lo)).sublist
      (List.filter_sublist _)).imp (fun h => Nat.ne_of_lt h)
  · intro x
    simp only [List.mem_filter, List.mem_range'_1, decide_eq_true_eq, mem_bcDofs]
    constructor
    · rintro ⟨⟨h1, h2⟩, h3⟩
      push_neg at h3
      exact ⟨h1, by omega, h3⟩
    · rintro ⟨h1, h2, h3⟩
      refine ⟨⟨h1, by omega⟩, ?_⟩
      push_neg
      exact h3
  · rintro x ⟨hx1, hx2⟩
    rw [List.mem_filter, decide_eq_true_eq] at hx1
    rw [constrainedIn, List.mem_filter, decide_eq_true_eq] at hx2
    exact hx1.2 hx2.2
  · intro x hlo hhi
    have hr : x ∈ List.range' lo (hi - lo) := by
      rw [List.mem_range'_1]
      omega
    by_cases hd : x ∈ bcDofs bcs
    · exact Or.inr (by rw [constrainedIn, List.mem_filter, decide_eq_true_eq]; exact ⟨hr, hd⟩)
    · exact Or.inl (by rw [List.mem_filter, decide_eq_true_eq]; exact ⟨hr, hd⟩)
  · have hsum := List.length_eq_length_filter_add
      (l := List.range' lo (hi - lo)) (fun x => decide (x ∉ bcDofs bcs))
    have hc : (List.range' lo (hi - lo)).filter (fun x => !(decide (x ∉ bcDofs bcs)))
        = constrainedIn bcs lo hi :=
      List.filter_congr (fun x _ => by simp [decide_not])
    rw [hc] at hsum
    rw [List.length_range'] at hsum
    omega

theorem zeroFun_getD (n j : Nat) : (zeroFun n).getD j 0 = 0 := by
  rw [zeroFun, List.getD_eq_getElem?_getD, List.getElem?_replicate]
  split <;> rfl

/-- C4: with a non-empty boundary-condition list the constructor succeeds,
stores the interior index set, and replaces each of `K` and `M` by the
principal submatrix taken with that same index set: a square matrix of
dimension `|interior|` whose `(i, j)` entry is the full matrix's entry at
row `interior[i]`, column `interior[j]`. -/
theorem submatrix_reducer_spec (K M : Mat) (lo hi : Nat) (bcs : List BC)
    (opts : Option (List (String × Int))) (hbcs : bcs ≠ []) :
    ∃ s iset,
      EigenSolver.init K M lo hi (BcsArg.list bcs) opts Option.none = Except.ok s ∧
      s.index_set = some iset ∧
      s.K = K.createSubMatrix iset ∧
      s.M = M.createSubMatrix iset ∧
      s.K.n = iset.length ∧
      s.M.n = iset.length ∧
      (∀ i j, s.K.entry i j = K.entry (iset.getD i 0) (iset.getD j 0)) ∧
      (∀ i j, s.M.entry i j = M.entry (iset.getD i 0) (iset.getD j 0)) := by
  cases bcs with
  | nil => exact absurd rfl hbcs
  | cons b rest =>
    refine ⟨{ bcs := (b :: rest).map some,
              K := K.createSubMatrix ((List.range' lo (hi - lo)).filter
                (fun x => decide (x ∉ bcDofs (b :: rest)))),
              M := M.createSubMatrix ((List.range' lo (hi - lo)).filter
                (fun x => decide (x ∉ bcDofs (b :: rest)))),
              index_set := some ((List.range' lo (hi - lo)).filter
                (fun x => decide (x ∉ bcDofs (b :: rest)))),
              slepc_options := initOptions opts, fullSize := hi },
            (List.range' lo (hi - lo)).filter (fun x => decide (x ∉ bcDofs (b :: rest))),
            ?_, rfl, rfl, rfl, rfl, rfl, fun i j => rfl, fun i j => rfl⟩
    have h := get_interior_eq (b :: rest) lo hi
    simp only [List.map_cons] at h
    simp [EigenSolver.init, truthyStr, normalizeBcs, h]

/-- Witness for C4 at `K = M = mat3`, range `[0, 3)`, one boundary
condition fixing DOF 1. -/
theorem submatrix_reducer_spec_witness :
    ([{ keys := [1] }] : List BC) ≠ [] ∧
    (∃ s iset,
      EigenSolver.init mat3 mat3 0 3 (BcsArg.list [{ keys := [1] }])
          Option.none Option.none = Except.ok s ∧
      s.index_set = some iset ∧
      s.K = mat3.createSubMatrix iset ∧
      s.M = mat3.createSubMatrix iset ∧
      s.K.n = iset.length ∧
      s.M.n = iset.length ∧
      (∀ i j, s.K.entry i j = mat3.entry (iset.getD i 0) (iset.getD j 0)) ∧
      (∀ i j, s.M.entry i j = mat3.entry (iset.getD i 0) (iset.getD j 0))) :=
  ⟨by decide,
    submatrix_reducer_spec mat3 mat3 0 3 [{ keys := [1] }] Option.none (by decide)⟩

/-- C3 (code-bug evaluation): constructed with an explicit empty
boundary-condition list, the solver skips both the reduction and the
projector, and `get_eigenpair` then returns the freshly allocated
zero functions — here `[0, 0]` — even though the converged eigenvector is
`[1, 2]`; the spec requires the returned functions to equal the
eigenvector at every position. -/
theorem get_eigenpair_no_bcs_zeroed :
    (∃ s, EigenSolver.init mat2 mat2 0 2 (BcsArg.list []) Option.none Option.none
        = Except.ok s ∧
      EigenSolver.get_eigenpair s epsOne 0 = Except.ok (7, [0, 0], [0, 0])) ∧
    epsOne.pairs 0 = (7, [1, 2], [0, 0]) ∧
    ([0, 0] : List Int) ≠ [1, 2] := by
  exact ⟨⟨_, rfl, rfl⟩, rfl, by decide⟩

/-- C6: requesting eigenpair index `i ≥ nconv` fails with the out-of-range
error rather than returning data, for every solver state and session
state; in particular index 0 fails when `nconv = 0`. -/
theorem get_eigenpair_out_of_range (s : Solver) (eps : EpsState) (i : Nat)
    (h : eps.nconv ≤ i) :
    EigenSolver.get_eigenpair s eps i = Except.error PyErr.outOfRange := by
  have hn : ¬ i < eps.nconv := Nat.not_lt.mpr h
  simp [EigenSolver.get_eigenpair, EPS.getEigenpair, hn]

/-- Witness for C6: a session with `nconv = 0` rejects index 0. -/
theorem get_eigenpair_out_of_range_witness :
    epsNone.nconv ≤ 0 ∧
    EigenSolver.get_eigenpair solverNoBc epsNone 0 = Except.error PyErr.outOfRange :=
  ⟨by decide, get_eigenpair_out_of_range solverNoBc epsNone 0 (by decide)⟩

/-- C10: with boundary conditions present, a successful `get_eigenpair`
returns functions built by scattering into freshly allocated zero
vectors, so every position outside the interior index set is exactly zero
in both the real and the imaginary function. -/
theorem get_eigenpair_zero_outside_interior (s : Solver) (eps : EpsState) (i : Nat)
    (iset : List Nat) (hbcs : s.bcs ≠ []) (hset : s.index_set = some iset)
    (hconv : i < eps.nconv) :
    ∃ eig u_r u_im,
      EigenSolver.get_eigenpair s eps i = Except.ok (eig, u_r, u_im) ∧
      ∀ j, j ∉ iset → u_r.getD j 0 = 0 ∧ u_im.getD j 0 = 0 := by
  rcases hp : eps.pairs i with ⟨eig, v_r, v_i⟩
  have hne : s.bcs.isEmpty = false := by
    cases hb : s.bcs with
    | nil => exact absurd hb hbcs
    | cons a l => rfl
  refine ⟨eig, scatter iset v_r (zeroFun s.fullSize),
    scatter iset v_i (zeroFun s.fullSize), ?_, ?_⟩
  · simp [EigenSolver.get_eigenpair, EPS.getEigenpair, hconv, hp, hne, hset]
  · intro j hj
    constructor <;> rw [scatter_getD_of_not_mem _ _ _ _ hj] <;> exact zeroFun_getD ..

/-- Witness for C10 at the one-constrained-DOF solver state `solverW`. -/
theorem get_eigenpair_zero_outside_interior_witness :
    (solverW.bcs ≠ [] ∧ solverW.index_set = some [1] ∧ 0 < epsW.nconv) ∧
    (∃ eig u_r u_im,
      EigenSolver.get_eigenpair solverW epsW 0 = Except.ok (eig, u_r, u_im) ∧
      ∀ j, j ∉ ([1] : List Nat) → u_r.getD j 0 = 0 ∧ u_im.getD j 0 = 0) :=
  ⟨⟨by decide, rfl, by decide⟩,
    get_eigenpair_zero_outside_interior solverW epsW 0 [1] (by decide) rfl (by decide)⟩

theorem set_options_lookup (opts : List (String × Int)) (reg : Registry) (k : String) :
    set_options reg opts k =
      (match lastVal opts k with
       | some v => some v
       | Option.none => reg k) := by
  induction opts generalizing reg with
  | nil => rfl
  | cons p rest ih =>
    show set_options (petscOptionsSet reg p.1 p.2) rest k = _
    rw [ih, lastVal]
    cases lastVal rest k with
    | some v => rfl
    | none =>
      simp only [petscOptionsSet]
      by_cases hk : k = p.1
      · simp [hk]
      · simp [hk, Ne.symm hk]

/-- C5 (counterexample): constructing with a user options mapping that
omits `eps_max_it` does not leave the default `eps_max_it = 100` in
effect — applying `set_options` to the stored mapping leaves the options
database with no entry for `eps_max_it` at all. -/
theorem slepc_options_default_not_merged :
    (EigenSolver.init mat2 mat2 0 2 (BcsArg.list []) (some [("eps_tol", 9)])
        Option.none).map
      (fun s => set_options emptyRegistry s.slepc_options "eps_max_it")
    = Except.ok Option.none := rfl

/-- C5 (amended): a user-supplied mapping replaces the default mapping
wholesale — the default `eps_max_it = 100` is in effect only when the
options argument is omitted entirely — and before the solve every entry
of the stored mapping is set into the options database, the mapping's
(last) value for a name overriding any prior database entry of that name,
while names absent from the mapping keep their prior database value. -/
theorem slepc_options_replacement_spec (o : List (String × Int)) (reg : Registry)
    (k : String) :
    initOptions (some o) = o ∧
    initOptions Option.none = [("eps_max_it", 100)] ∧
    set_options reg (initOptions (some o)) k =
      (match lastVal o k with
       | some v => some v
       | Option.none => reg k) :=
  ⟨rfl, rfl, set_options_lookup o reg k⟩

/-- C7 (counterexample): a boundary condition whose key 5 lies outside the
ownership range `[0, 3)` is not rejected — selection succeeds and simply
ignores the out-of-range key. -/
theorem interior_out_of_range_ignored :
    get_interior_index_set [some { keys := [5] }] 0 3 = Except.ok [0, 1, 2] := rfl

/-- C7 (amended): boundary-condition keys outside the ownership range are
silently ignored: selection on genuine boundary conditions always
succeeds, and deleting every out-of-range key from the boundary
conditions leaves the result unchanged. -/
theorem interior_out_of_range_silent (bcs : List BC) (lo hi : Nat) :
    (∃ l, get_interior_index_set (bcs.map some) lo hi = Except.ok l) ∧
    get_interior_index_set (bcs.map some) lo hi
      = get_interior_index_set
          ((bcs.map (fun bc =>
            ({ keys := bc.keys.filter (fun k => decide (lo ≤ k) && decide (k < hi)) }
              : BC))).map some) lo hi := by
  constructor
  · exact ⟨_, get_interior_eq bcs lo hi⟩
  · rw [get_interior_eq, get_interior_eq]
    refine congrArg Except.ok (List.filter_congr ?_)
    intro x hx
    rw [List.mem_range'_1] at hx
    have hlo : lo ≤ x := hx.1
    have hhi : x < hi := by omega
    rw [decide_eq_decide, not_iff_not, mem_bcDofs, mem_bcDofs]
    constructor
    · rintro ⟨bc, hbc, hk⟩
      refine ⟨_, List.mem_map_of_mem _ hbc, ?_⟩
      rw [List.mem_filter]
      exact ⟨hk, by simp [hlo, hhi]⟩
    · rintro ⟨bc', hbc', hk⟩
      rw [List.mem_map] at hbc'
      obtain ⟨bc, hbc, rfl⟩ := hbc'
      rw [List.mem_filter] at hk
      exact ⟨bc, hbc, hk.1⟩

/-- C8: leaving `bcs` at its default wraps `None` into `[None]`, which is
treated as a boundary-condition list, so construction fails inside
interior DOF selection with an `AttributeError`; the unconstrained path
(no index set stored) is taken for an explicit empty list, while a bare
boundary-condition object is wrapped and takes the constrained path. -/
theorem init_bcs_default_not_unconstrained (K M : Mat) (lo hi : Nat)
    (opts : Option (List (String × Int))) :
    normalizeBcs BcsArg.noneArg = [Option.none] ∧
    EigenSolver.init K M lo hi BcsArg.noneArg opts Option.none
      = Except.error PyErr.attributeError ∧
    (∃ s, EigenSolver.init K M lo hi (BcsArg.list []) opts Option.none = Except.ok s ∧
      s.bcs = [] ∧ s.index_set = Option.none) ∧
    (∀ bc : BC, ∃ s,
      EigenSolver.init K M lo hi (BcsArg.single bc) opts Option.none = Except.ok s ∧
      s.bcs = [some bc] ∧ s.index_set ≠ Option.none) := by
  refine ⟨rfl, rfl, ⟨_, rfl, rfl, rfl⟩, ?_⟩
  intro bc
  have h : get_interior_index_set [some bc] lo hi
      = Except.ok ((List.range' lo (hi - lo)).filter
          (fun x => decide (x ∉ bcDofs [bc]))) := by
    simpa using get_interior_eq [bc] lo hi
  refine ⟨{ bcs := [some bc],
            K := K.createSubMatrix ((List.range' lo (hi - lo)).filter
              (fun x => decide (x ∉ bcDofs [bc]))),
            M := M.createSubMatrix ((List.range' lo (hi - lo)).filter
              (fun x => decide (x ∉ bcDofs [bc]))),
            index_set := some ((List.range' lo (hi - lo)).filter
              (fun x => decide (x ∉ bcDofs [bc]))),
            slepc_options := initOptions opts, fullSize := hi }, ?_, rfl, by simp⟩
  simp [EigenSolver.init, truthyStr, normalizeBcs, h]

/-- C9 (counterexample): the empty string is a non-`None` `option_prefix`
for which construction succeeds — Python's truthiness test skips the
`self.E` access — so not every non-`None` value raises. -/
theorem init_empty_prefix_ok :
    EigenSolver.init mat2 mat2 0 2 (BcsArg.list []) Option.none (some "")
      = Except.ok { bcs := [], K := mat2, M := mat2, index_set := Option.none,
                    slepc_options := [("eps_max_it", 100)], fullSize := 2 } := rfl

/-- C9 (amended): every truthy `option_prefix` — any non-empty string —
makes the constructor read the not-yet-created `self.E` attribute and
raise an `AttributeError`, for all other constructor arguments; `None`
and the empty string skip the branch. -/
theorem init_truthy_prefix_raises (K M : Mat) (lo hi : Nat) (bcs : BcsArg)
    (opts : Option (List (String × Int))) (p : String) (hp : p ≠ "") :
    EigenSolver.init K M lo hi bcs opts (some p)
      = Except.error PyErr.attributeError := by
  have ht : truthyStr (some p) = true := by
    simp [truthyStr, hp]
  simp [EigenSolver.init, ht]

/-- Witness for the amended C9 at `option_prefix = "x"`. -/
theorem init_truthy_prefix_raises_witness :
    ("x" : String) ≠ "" ∧
    EigenSolver.init mat2 mat2 0 2 (BcsArg.list []) Option.none (some "x")
      = Except.error PyErr.attributeError :=
  ⟨by decide,
    init_truthy_prefix_raises mat2 mat2 0 2 (BcsArg.list []) Option.none "x" (by decide)⟩

end SlepcEigen
